import Mathlib

/-!
Shallow embedding of `converter.py` (Neemalina/Xmlconverter): a small
configuration language compiled to XML.  The pipeline is
tokenize (with the two `%ignore` comment rules) → parse (the Lark LALR
grammar, with Lark's default tree shaping: anonymous string tokens such as
`"const"`, `"len"`, `"("` are filtered out of the tree) → transform
(`ConfigTransformer`, which runs inline during parsing) → serialize
(`value_to_xml` under the `<config>` root).

Machine numbers: Python `float` values are modelled exactly as rationals
(`ℚ`); Python `int` as `ℤ`.  All claims proved here concern value kinds and
small exact values, where the rational model agrees with Python arithmetic.
-/

namespace Conv

/-- Runtime values produced by `ConfigTransformer` (Python values):
`int` / `float` / `list` / `dict` (insertion ordered) / `str`
(an unresolved identifier, the spec's `Symbol`). -/
inductive Value where
  | int (n : Int)
  | float (q : ℚ)
  | arr (elems : List Value)
  | dict (entries : List (String × Value))
  | sym (s : String)

/-- Error outcomes of the program, matching the `except` clauses of `main`
plus the uncaught `IndexError` that `_eval_function` can raise
(`tree.children[1]` on a one-element child list). `larkError` covers
both lexing (`UnexpectedCharacters`) and parsing (`UnexpectedToken`)
failures, which `main` reports as "Syntax error". -/
inductive Err where
  | larkError
  | typeMismatch
  | divisionByZero
  | valueError
  | indexError
  deriving DecidableEq

/-- Tokens of the grammar.  Keywords and identifiers are both lexed as
`word`: the Lark contextual lexer decides keyword vs `CNAME` from the parse
state, which the parser below reproduces by matching on the word's text
exactly where the grammar mentions the literal keyword. -/
inductive Tok where
  | word (s : String)
  | num (q : ℚ)
  | lpar | rpar | lbrk | rbrk | comma | eqTok | bar
  | plus | minus | star | slash
  deriving DecidableEq

/-- Digit run to a natural number. -/
def digitsVal (ds : List Char) : Nat :=
  ds.foldl (fun a c => 10 * a + (c.toNat - 48)) 0

/-- Scan a `SIGNED_NUMBER` (lark `common`): `["+"|"-"] (FLOAT | INT)` with
`FLOAT: INT _EXP | DECIMAL _EXP?`, `DECIMAL: INT "." INT? | "." INT`,
`_EXP: ("e"|"E") SIGNED_INT`.  Returns the exact rational value of the
literal together with the unconsumed input (maximal munch: an `e` not
followed by digits is not part of the number). -/
def scanNumber (cs : List Char) : Option (ℚ × List Char) :=
  let sgn : Bool × List Char :=
    match cs with
    | '-' :: t => (true, t)
    | '+' :: t => (false, t)
    | _ => (false, cs)
  let neg := sgn.1
  let cs₁ := sgn.2
  let ip := cs₁.takeWhile Char.isDigit
  let cs₂ := cs₁.dropWhile Char.isDigit
  let hasDot : Bool := match cs₂ with | '.' :: _ => true | _ => false
  let fp := match cs₂ with | '.' :: t => t.takeWhile Char.isDigit | _ => []
  let cs₃ := match cs₂ with | '.' :: t => t.dropWhile Char.isDigit | _ => cs₂
  if ip = [] ∧ ¬(hasDot ∧ fp ≠ []) then none
  else
    let ex : Option (Bool × Nat) × List Char :=
      match cs₃ with
      | e :: t =>
        if e = 'e' ∨ e = 'E' then
          match t with
          | s :: t' =>
            if s = '+' ∨ s = '-' then
              let ds := t'.takeWhile Char.isDigit
              if ds = [] then (none, cs₃)
              else (some (s = '-', digitsVal ds), t'.dropWhile Char.isDigit)
            else
              let ds := t.takeWhile Char.isDigit
              if ds = [] then (none, cs₃)
              else (some (false, digitsVal ds), t.dropWhile Char.isDigit)
          | [] => (none, cs₃)
        else (none, cs₃)
      | [] => (none, cs₃)
    let mag : ℚ := (digitsVal (ip ++ fp) : ℚ) / ((10 : ℚ) ^ fp.length)
    let withExp : ℚ :=
      match ex.1 with
      | some (true, e) => mag / (10 : ℚ) ^ e
      | some (false, e) => mag * (10 : ℚ) ^ e
      | none => mag
    some ((if neg then -withExp else withExp), ex.2)

/-- The value Python's `float()` gives to a full `SIGNED_NUMBER` literal,
modelled exactly over `ℚ` (the literal must be consumed entirely). -/
def numLitQ (s : String) : Option ℚ :=
  match scanNumber s.toList with
  | some (q, []) => some q
  | _ => none

/-- The `number` transformer callback:
`val = float(tok); return int(val) if val.is_integer() else val`. -/
def numberVal (q : ℚ) : Value :=
  if q.den = 1 then .int q.num else .float q

/-- Characters Python's `\s` (the grammar's `%ignore WS`) matches. -/
def isWS (c : Char) : Bool :=
  c = ' ' || c = '\t' || c = '\n' || c = '\r' || c = '\x0b' || c = '\x0c'

/-- Continuation characters of `CNAME: /[a-z][a-z0-9_]*/`. -/
def isWordChar (c : Char) : Bool :=
  c.isLower || c.isDigit || c = '_'

/-- First character of `CNAME`. -/
def isWordStart (c : Char) : Bool := c.isLower

/-- Body scan of the block-comment rule `%ignore /\/#.*?#\//`: after the
opening `/#`, find the first `#/`.  Since `.` in a Python regex does not
match a newline, the match fails if a newline occurs before the first
`#/`.  Returns the input remaining after the end marker. -/
def skipBlock : List Char → Option (List Char)
  | [] => none
  | c :: t =>
    if c = '\n' then none
    else if c = '#' ∧ t.head? = some '/' then some t.tail
    else skipBlock t

/-- Does a `+`/`-` begin a `SIGNED_NUMBER` here (a digit, or a dot followed
by a digit, comes next)? -/
def startsNum : List Char → Bool
  | [] => false
  | d :: t =>
    d.isDigit || (d = '.' && match t with | e :: _ => e.isDigit | [] => false)

/-- The lexer.  `pOp` records whether the previous token can end an operand
(number, word, `)`): in exactly those parser states the contextual lexer
does not accept `SIGNED_NUMBER`, so a following `+`/`-` is an operator
rather than a sign.  A `/#` without a same-line `#/` is not a comment;
the `/` then lexes as `SLASH` (or fails), and the following `#` matches no
terminal, so such input always ends in `larkError`.  `fuel` only ensures
termination; `tokenize` supplies enough for the whole input. -/
def lexLoop : Nat → Bool → List Char → Except Err (List Tok)
  | _, _, [] => .ok []
  | 0, _, _ => .error .larkError
  | f + 1, pOp, c :: rest =>
    if isWS c then lexLoop f pOp rest
    else if c = '!' then lexLoop f pOp (rest.dropWhile (fun ch => ch != '\n'))
    else if c = '/' then
      match rest with
      | '#' :: r2 =>
        match skipBlock r2 with
        | some r3 => lexLoop f pOp r3
        | none => (lexLoop f false ('#' :: r2)).map (Tok.slash :: ·)
      | _ => (lexLoop f false rest).map (Tok.slash :: ·)
    else if isWordStart c then
      let w := String.mk (c :: rest.takeWhile isWordChar)
      (lexLoop f true (rest.dropWhile isWordChar)).map (Tok.word w :: ·)
    else if c.isDigit || c = '.' then
      match scanNumber (c :: rest) with
      | some (q, r) => (lexLoop f true r).map (Tok.num q :: ·)
      | none => .error .larkError
    else if (c = '+' || c = '-') && !pOp && startsNum rest then
      match scanNumber (c :: rest) with
      | some (q, r) => (lexLoop f true r).map (Tok.num q :: ·)
      | none => .error .larkError
    else if c = '(' then (lexLoop f false rest).map (Tok.lpar :: ·)
    else if c = ')' then (lexLoop f true rest).map (Tok.rpar :: ·)
    else if c = '[' then (lexLoop f false rest).map (Tok.lbrk :: ·)
    else if c = ']' then (lexLoop f false rest).map (Tok.rbrk :: ·)
    else if c = ',' then (lexLoop f false rest).map (Tok.comma :: ·)
    else if c = '=' then (lexLoop f false rest).map (Tok.eqTok :: ·)
    else if c = '|' then (lexLoop f false rest).map (Tok.bar :: ·)
    else if c = '+' then (lexLoop f false rest).map (Tok.plus :: ·)
    else if c = '-' then (lexLoop f false rest).map (Tok.minus :: ·)
    else if c = '*' then (lexLoop f false rest).map (Tok.star :: ·)
    else .error .larkError

/-- Tokenize a source document (every lexer step consumes at least one
character, so `length + 1` fuel always suffices). -/
def tokenize (s : String) : Except Err (List Tok) :=
  lexLoop (s.length + 1) false s.toList

/-! ## Evaluator (`ConfigTransformer`) -/

/-- The constant table `self.constants`: a Python `dict`, modelled as an
insertion-ordered association list with unique keys. -/
abbrev Consts := List (String × Value)

/-- CPython `dict` assignment `d[k] = v`: an existing key keeps its
position and gets the new value; a new key is appended at the end. -/
def pyInsert : List (String × Value) → String → Value → List (String × Value)
  | [], k, v => [(k, v)]
  | e :: t, k, v => if e.1 = k then (k, v) :: t else e :: pyInsert t k v

/-- Build a Python `dict` from a pair list, as the `dict` transformer
method's comprehension `{k: self._get_value(v) for k, v in items}` does
(the inner `_get_value` re-resolution is the identity here: entry values
are already evaluated, and an unresolved string stays unresolved because
the constant table cannot change in the middle of one literal). -/
def pyDict (ps : List (String × Value)) : List (String × Value) :=
  ps.foldl (fun d p => pyInsert d p.1 p.2) []

/-- First-match association lookup (Python dict lookup; keys are unique,
so first match is the match). -/
def alookup : List (String × Value) → String → Option Value
  | [], _ => none
  | e :: t, k => if e.1 = k then some e.2 else alookup t k

/-- The `str` branch of `_get_value`: an identifier resolves to its bound
value if present in the constant table, else it stays as the raw string
(the spec's `Symbol`). -/
def getValueStr (c : Consts) (s : String) : Value :=
  match alookup c s with
  | some v => v
  | none => .sym s

/-- Binary operator tags, the `add`/`sub`/`mul`/`div` rule aliases. -/
inductive Op where
  | add | sub | mul | div
  deriving DecidableEq

/-- Expression trees as Lark builds them under a `const_expr`
(`expr`/`term`/`factor` chain nodes are transparent and elided here, as
`_transform_tree` treats them).  A `function` node keeps only its argument
child: the anonymous `"len"`/`"abs"` keyword token is filtered out of the
tree by Lark's default tree shaping. -/
inductive Expr where
  | lit (v : Value)
  | ident (s : String)
  | bin (op : Op) (l r : Expr)
  | call (arg : Expr)

/-- Numeric view used by `_eval_binary_op`'s
`isinstance(x, (int, float))` check. -/
def toQ : Value → Option ℚ
  | .int n => some (n : ℚ)
  | .float q => some q
  | _ => none

/-- Is the value an `int` or a `float`? -/
def isNum (v : Value) : Bool := (toQ v).isSome

/-- Is the value a `float`? -/
def isFloat : Value → Bool
  | .float _ => true
  | _ => false

/-- `_eval_binary_op` after both operands are evaluated: both must be
`int` or `float` (else `TypeError`); then the operator lambda runs.
Python promotion: `int op int` stays `int` for `+ - *`; any `float`
operand makes the result `float`; `/` is true division, always `float`,
with `b != 0` tested just before dividing (so a type error wins over a
zero divisor). -/
def arith (op : Op) (x y : Value) : Except Err Value :=
  match x, y with
  | .int a, .int b =>
    match op with
    | .add => .ok (.int (a + b))
    | .sub => .ok (.int (a - b))
    | .mul => .ok (.int (a * b))
    | .div => if b = 0 then .error .divisionByZero else .ok (.float ((a : ℚ) / (b : ℚ)))
  | x, y =>
    match toQ x, toQ y with
    | some a, some b =>
      match op with
      | .add => .ok (.float (a + b))
      | .sub => .ok (.float (a - b))
      | .mul => .ok (.float (a * b))
      | .div => if b = 0 then .error .divisionByZero else .ok (.float (a / b))
    | _, _ => .error .typeMismatch

/-- `_transform_tree` on an expression tree: number and identifier leaves,
binary nodes via `_eval_binary_op`, and `function` nodes via
`_eval_function`.  A `function` tree has a single child (the argument
expression): `_eval_function` reads `tree.children[0]` as the function
name (it is in fact the argument tree) and then `tree.children[1]`, which
raises an uncaught `IndexError` — before the argument is ever evaluated. -/
def evalExpr (c : Consts) : Expr → Except Err Value
  | .lit v => .ok v
  | .ident s => .ok (getValueStr c s)
  | .bin op l r => do
    let x ← evalExpr c l
    let y ← evalExpr c r
    arith op x y
  | .call _ => .error .indexError

/-! ## Parser

The Lark LALR parser with the transformer attached evaluates rules
bottom-up while parsing.  The functions below mirror that: `value`s are
evaluated the moment their rule completes (using the constant table as it
stands), a `const` item updates the table, and expression trees under a
`const_expr` are built first and evaluated at the closing `|` (matching
the `const_expr` callback, since nothing can modify the table between the
reductions inside one item).  `fuel` decreases on every call purely for
termination; `runItems` always passes enough for its token list. -/

/-- Top-level output items: `const` tuples `('const', name, value)` or a
bare array/table value. -/
inductive Item where
  | constItem (name : String) (v : Value)
  | bare (v : Value)

mutual

/-- `expr: term | expr "+" term -> add | expr "-" term -> sub`. -/
def parseExpr : Nat → List Tok → Except Err (Expr × List Tok)
  | 0, _ => .error .larkError
  | f + 1, ts => do
    let (e, ts₁) ← parseTerm f ts
    parseExprRest f e ts₁

/-- Left-associative `+`/`-` chain. -/
def parseExprRest : Nat → Expr → List Tok → Except Err (Expr × List Tok)
  | 0, _, _ => .error .larkError
  | f + 1, acc, .plus :: ts => do
    let (t, ts₁) ← parseTerm f ts
    parseExprRest f (.bin .add acc t) ts₁
  | f + 1, acc, .minus :: ts => do
    let (t, ts₁) ← parseTerm f ts
    parseExprRest f (.bin .sub acc t) ts₁
  | _ + 1, acc, ts => .ok (acc, ts)

/-- `term: factor | term "*" factor -> mul | term "/" factor -> div`. -/
def parseTerm : Nat → List Tok → Except Err (Expr × List Tok)
  | 0, _ => .error .larkError
  | f + 1, ts => do
    let (e, ts₁) ← parseFactor f ts
    parseTermRest f e ts₁

/-- Left-associative `*`/`/` chain. -/
def parseTermRest : Nat → Expr → List Tok → Except Err (Expr × List Tok)
  | 0, _, _ => .error .larkError
  | f + 1, acc, .star :: ts => do
    let (t, ts₁) ← parseFactor f ts
    parseTermRest f (.bin .mul acc t) ts₁
  | f + 1, acc, .slash :: ts => do
    let (t, ts₁) ← parseFactor f ts
    parseTermRest f (.bin .div acc t) ts₁
  | _ + 1, acc, ts => .ok (acc, ts)

/-- `factor: number | CNAME | "(" expr ")" | function` with
`function: "len" "(" expr ")" | "abs" "(" expr ")"`.  In factor position
the contextual lexer turns the words `len`/`abs` into keyword tokens
(literal match beats the equal-length `CNAME` match), so they must be
followed by a parenthesized argument; any other word is a `CNAME`. -/
def parseFactor : Nat → List Tok → Except Err (Expr × List Tok)
  | 0, _ => .error .larkError
  | f + 1, .num q :: ts => .ok (.lit (numberVal q), ts)
  | f + 1, .word w :: ts =>
    if w = "len" ∨ w = "abs" then
      match ts with
      | .lpar :: ts₁ => do
        let (a, ts₂) ← parseExpr f ts₁
        match ts₂ with
        | .rpar :: r => .ok (.call a, r)
        | _ => .error .larkError
      | _ => .error .larkError
    else .ok (.ident w, ts)
  | f + 1, .lpar :: ts => do
    let (e, ts₁) ← parseExpr f ts
    match ts₁ with
    | .rpar :: r => .ok (e, r)
    | _ => .error .larkError
  | _ + 1, _ => .error .larkError

end

mutual

/-- `value: number | array | dict | const_expr | CNAME`, evaluated on the
spot as the inline transformer does.  In value position only `table` is a
keyword (`len`/`abs`/`const` here lex as `CNAME`, since the contextual
lexer does not offer the keyword terminals in this state). -/
def parseValue (c : Consts) : Nat → List Tok → Except Err (Value × List Tok)
  | 0, _ => .error .larkError
  | f + 1, .num q :: ts => .ok (numberVal q, ts)
  | f + 1, .word w :: ts =>
    if w = "table" then parseDictV c f ts
    else .ok (getValueStr c w, ts)
  | f + 1, .lpar :: ts => parseArrayV c f ts
  | f + 1, .bar :: ts => do
    let (e, ts₁) ← parseExpr f ts
    match ts₁ with
    | .bar :: r => do
      let v ← evalExpr c e
      .ok (v, r)
    | _ => .error .larkError
  | _ + 1, _ => .error .larkError

/-- `array: "(" [value ("," value)*] ")"`, after the opening `(`. -/
def parseArrayV (c : Consts) : Nat → List Tok → Except Err (Value × List Tok)
  | 0, _ => .error .larkError
  | f + 1, .rpar :: ts => .ok (.arr [], ts)
  | f + 1, ts => do
    let (v, ts₁) ← parseValue c f ts
    parseArrayRest c f [v] ts₁

/-- Remaining `("," value)* ")"` of an array literal. -/
def parseArrayRest (c : Consts) : Nat → List Value → List Tok →
    Except Err (Value × List Tok)
  | 0, _, _ => .error .larkError
  | f + 1, acc, .comma :: ts => do
    let (v, ts₁) ← parseValue c f ts
    parseArrayRest c f (acc ++ [v]) ts₁
  | _ + 1, acc, .rpar :: ts => .ok (.arr acc, ts)
  | _ + 1, _, _ => .error .larkError

/-- `dict: "table" "(" "[" dict_entry ("," dict_entry)* "]" ")"`, after
the `table` keyword. -/
def parseDictV (c : Consts) : Nat → List Tok → Except Err (Value × List Tok)
  | 0, _ => .error .larkError
  | f + 1, .lpar :: .lbrk :: ts => parseDictEntries c f [] ts
  | _ + 1, _ => .error .larkError

/-- Entry list `CNAME "=" value` separated by commas, closed by `] )`.
Entry keys are the literal identifier text; duplicate keys are resolved by
Python dict construction (`pyDict`). -/
def parseDictEntries (c : Consts) : Nat → List (String × Value) →
    List Tok → Except Err (Value × List Tok)
  | 0, _, _ => .error .larkError
  | f + 1, acc, .word k :: .eqTok :: ts => do
    let (v, ts₁) ← parseValue c f ts
    match ts₁ with
    | .comma :: ts₂ => parseDictEntries c f (acc ++ [(k, v)]) ts₂
    | .rbrk :: .rpar :: r => .ok (.dict (pyDict (acc ++ [(k, v)])), r)
    | _ => .error .larkError
  | _ + 1, _, _ => .error .larkError

end

/-- `start: item*` with `item: const | array | dict`, evaluated in
document order; a `const` item binds its name in the constant table for
the items that follow (`self.constants[name] = value`). -/
def parseItems (c : Consts) (fuel : Nat) (ts : List Tok) :
    Except Err (List Item × Consts) :=
  match ts with
  | [] => .ok ([], c)
  | t :: ts' =>
    match fuel with
    | 0 => .error .larkError
    | f + 1 =>
      match t, ts' with
      | .word "const", .word n :: .eqTok :: ts₁ => do
        let (v, ts₂) ← parseValue c f ts₁
        let c' := pyInsert c n v
        let (items, cf) ← parseItems c' f ts₂
        .ok (.constItem n v :: items, cf)
      | .word "table", ts₁ => do
        let (v, ts₂) ← parseDictV c f ts₁
        let (items, cf) ← parseItems c f ts₂
        .ok (.bare v :: items, cf)
      | .lpar, ts₁ => do
        let (v, ts₂) ← parseArrayV c f ts₁
        let (items, cf) ← parseItems c f ts₂
        .ok (.bare v :: items, cf)
      | _, _ => .error .larkError

/-! ## Serializer (`value_to_xml`) -/

/-- An XML element: tag, attributes (in `set` order), optional text, and
child elements in insertion order. -/
inductive Xml where
  | elem (tag : String) (attrs : List (String × String))
      (text : Option String) (children : List Xml)

/-- Rendering of a Python `float` by `str`.  For an integral float Python
prints `"5.0"`, which this reproduces; non-integral rationals are printed
as fractions, a deliberate divergence from Python's shortest-roundtrip
decimal form that no claim depends on. -/
def floatRepr (q : ℚ) : String :=
  if q.den = 1 then toString q.num ++ ".0" else toString q

mutual

/-- `value_to_xml` for one value: numbers become `<number type=...>`,
lists `<array>`, dicts `<dict>` of keyed `<entry>`s, and strings
(unresolved identifiers) a `<string>` text node with the raw name. -/
def valueToXml : Value → Xml
  | .int n => .elem "number" [("type", "integer")] (some (toString n)) []
  | .float q => .elem "number" [("type", "float")] (some (floatRepr q)) []
  | .arr l => .elem "array" [] none (valueListToXml l)
  | .dict d => .elem "dict" [] none (entriesToXml d)
  | .sym s => .elem "string" [] (some s) []

/-- Serialize array elements in order. -/
def valueListToXml : List Value → List Xml
  | [] => []
  | v :: t => valueToXml v :: valueListToXml t

/-- Serialize dict entries in order. -/
def entriesToXml : List (String × Value) → List Xml
  | [] => []
  | (k, v) :: t =>
    .elem "entry" [("key", k)] none [valueToXml v] :: entriesToXml t

end

/-- Serialization of a top-level item: a `('const', name, value)` tuple
becomes `<const name=...>`; a bare value serializes directly. -/
def itemToXml : Item → Xml
  | .constItem n v => .elem "const" [("name", n)] none [valueToXml v]
  | .bare v => valueToXml v

/-! ## The pipeline (`main`) -/

/-- Tokenize and parse/evaluate a document, returning the output items and
the final constant table.  The fuel bound is generous: the parser performs
at most a few calls per token. -/
def runItems (src : String) : Except Err (List Item × Consts) := do
  let ts ← tokenize src
  parseItems [] (4 * ts.length + 8) ts

/-- The whole pipeline up to the XML tree: on success the items are
serialized under a single `<config>` root.  Any error aborts before
anything is produced. -/
def runPipeline (src : String) : Except Err Xml := do
  let (items, _) ← runItems src
  .ok (.elem "config" [] none (items.map itemToXml))

/-- Process exit status of `main`: `0` on success, `1` for every error
path (including an uncaught exception, which also terminates Python with
status 1). -/
def exitCode (src : String) : Nat :=
  match runPipeline src with
  | .ok _ => 0
  | .error _ => 1

/-- The artifact written to the output path: `main` writes the XML only
after the whole pipeline has succeeded, so a failed run writes nothing. -/
def writtenOutput (src : String) : Option Xml :=
  match runPipeline src with
  | .ok x => some x
  | .error _ => none

/-! ## Specification-side notions used to state the claims -/

/-- Keys in first-occurrence order, skipping keys already `seen`: the
order in which CPython dict construction lays out the keys. -/
def dedupF : List String → List String → List String
  | _, [] => []
  | seen, k :: t =>
    if k ∈ seen then dedupF seen t else k :: dedupF (k :: seen) t

/-- The value attached to the last occurrence of a key in an entry list
("last write wins"). -/
def lastAssoc : List (String × Value) → String → Option Value
  | [], _ => none
  | (k', v) :: t, k =>
    match lastAssoc t k with
    | some w => some w
    | none => if k' = k then some v else none

/-- Does the character list contain an adjacent `#/` pair (a block-comment
end marker)? -/
def hasEndMark : List Char → Bool
  | [] => false
  | [_] => false
  | a :: b :: t => (a = '#' && b = '/') || hasEndMark (b :: t)

/-- Exact rational meaning of each arithmetic operator. -/
def qOp : Op → ℚ → ℚ → ℚ
  | .add, a, b => a + b
  | .sub, a, b => a - b
  | .mul, a, b => a * b
  | .div, a, b => a / b

/-! ## Supporting lemmas -/

theorem okBind {α β : Type} (v : α) (f : α → Except Err β) :
    (Except.ok v : Except Err α).bind f = f v := rfl

theorem evalExpr_bin (c : Consts) (op : Op) (l r : Expr) :
    evalExpr c (.bin op l r) =
      (evalExpr c l).bind fun x => (evalExpr c r).bind fun y => arith op x y :=
  rfl

theorem toQ_cases {v : Value} {a : ℚ} (h : toQ v = some a) :
    (∃ n : Int, v = .int n ∧ a = (n : ℚ)) ∨ v = .float a := by
  cases v with
  | int n =>
    left
    exact ⟨n, rfl, (Option.some.inj h).symm⟩
  | float q =>
    right
    rw [(Option.some.inj h : q = a)]
  | arr l => simp [toQ] at h
  | dict d => simp [toQ] at h
  | sym s => simp [toQ] at h

theorem arith_typeMismatch {x y : Value} (op : Op)
    (h : toQ x = none ∨ toQ y = none) :
    arith op x y = .error .typeMismatch := by
  cases x <;> cases y <;> simp [toQ] at h <;> simp [arith, toQ]

theorem arith_div_ok {x y : Value} {a b : ℚ}
    (hx : toQ x = some a) (hy : toQ y = some b) (hb : b ≠ 0) :
    arith .div x y = .ok (.float (a / b)) := by
  rcases toQ_cases hx with ⟨n, rfl, rfl⟩ | rfl <;>
    rcases toQ_cases hy with ⟨m, rfl, rfl⟩ | rfl
  · have hm : m ≠ 0 := by
      intro h
      exact hb (by rw [h]; simp)
    simp [arith, hm]
  · simp [arith, toQ, hb]
  · simp [arith, toQ, hb]
  · simp [arith, toQ, hb]

theorem arith_div_zero {x y : Value} {a : ℚ}
    (hx : toQ x = some a) (hy : toQ y = some 0) :
    arith .div x y = .error .divisionByZero := by
  rcases toQ_cases hx with ⟨n, rfl, rfl⟩ | rfl <;>
    rcases toQ_cases hy with ⟨m, rfl, hm⟩ | rfl
  · have : m = 0 := by exact_mod_cast hm.symm
    simp [arith, this]
  · simp [arith, toQ]
  · have : m = 0 := by exact_mod_cast hm.symm
    simp [arith, toQ, this]
  · simp [arith, toQ]

theorem arith_float {x y : Value} {a b : ℚ} (op : Op)
    (hop : op ≠ .div) (hx : toQ x = some a) (hy : toQ y = some b)
    (hf : isFloat x ∨ isFloat y) :
    arith op x y = .ok (.float (qOp op a b)) := by
  rcases toQ_cases hx with ⟨n, rfl, rfl⟩ | rfl <;>
    rcases toQ_cases hy with ⟨m, rfl, rfl⟩ | rfl
  · simp [isFloat] at hf
  · cases op <;> simp [arith, toQ, qOp] at hop ⊢
  · cases op <;> simp [arith, toQ, qOp] at hop ⊢
  · cases op <;> simp [arith, toQ, qOp] at hop ⊢

theorem alookup_pyInsert (d : List (String × Value)) (k' k : String) (v : Value) :
    alookup (pyInsert d k' v) k = if k = k' then some v else alookup d k := by
  induction d with
  | nil => simp [pyInsert, alookup, eq_comm]
  | cons e t ih =>
    by_cases he : e.1 = k'
    · rw [pyInsert, if_pos he]
      by_cases hk : k = k'
      · subst hk
        simp [alookup]
      · have hk' : ¬k' = k := fun h => hk h.symm
        have he' : ¬e.1 = k := fun h => hk' (he.symm.trans h)
        simp [alookup, hk, hk', he']
    · rw [pyInsert, if_neg he]
      by_cases hk : e.1 = k
      · have hkk' : ¬k = k' := fun h => he (hk.trans h)
        simp [alookup, hk, hkk']
      · simp [alookup, hk, ih]

theorem pyInsert_keys (d : List (String × Value)) (k : String) (v : Value) :
    (pyInsert d k v).map Prod.fst =
      if k ∈ d.map Prod.fst then d.map Prod.fst else d.map Prod.fst ++ [k] := by
  induction d with
  | nil => simp [pyInsert]
  | cons e t ih =>
    by_cases he : e.1 = k
    · rw [pyInsert, if_pos he]
      subst he
      simp
    · rw [pyInsert, if_neg he]
      have hke : ¬k = e.1 := fun h => he h.symm
      by_cases hm : k ∈ t.map Prod.fst
      · simp [ih, hm, hke]
      · simp [ih, hm, hke]

theorem pyFold_lookup (ps : List (String × Value)) :
    ∀ (acc : List (String × Value)) (k : String),
      alookup (ps.foldl (fun d p => pyInsert d p.1 p.2) acc) k =
        match lastAssoc ps k with
        | some w => some w
        | none => alookup acc k := by
  induction ps with
  | nil => intro acc k; simp [lastAssoc]
  | cons p t ih =>
    intro acc k
    rw [List.foldl_cons, ih]
    rcases p with ⟨k', v⟩
    rw [lastAssoc]
    cases hl : lastAssoc t k
    · rw [alookup_pyInsert]
      by_cases hk : k' = k
      · simp [hk]
      · have hk' : ¬k = k' := fun h => hk h.symm
        simp [hk, hk']
    · rfl

theorem dedupF_congr (l : List String) :
    ∀ s₁ s₂ : List String, (∀ x, x ∈ s₁ ↔ x ∈ s₂) →
      dedupF s₁ l = dedupF s₂ l := by
  induction l with
  | nil => intro s₁ s₂ _; rfl
  | cons k t ih =>
    intro s₁ s₂ h
    rw [dedupF, dedupF]
    by_cases hk : k ∈ s₁
    · rw [if_pos hk, if_pos ((h k).mp hk), ih s₁ s₂ h]
    · rw [if_neg hk, if_neg (fun hx => hk ((h k).mpr hx))]
      have h' : ∀ x, x ∈ k :: s₁ ↔ x ∈ k :: s₂ := by
        intro x
        simp [List.mem_cons, h x]
      rw [ih (k :: s₁) (k :: s₂) h']

theorem pyFold_keys (ps : List (String × Value)) :
    ∀ acc : List (String × Value),
      (ps.foldl (fun d p => pyInsert d p.1 p.2) acc).map Prod.fst =
        acc.map Prod.fst ++ dedupF (acc.map Prod.fst) (ps.map Prod.fst) := by
  induction ps with
  | nil => intro acc; simp [dedupF]
  | cons p t ih =>
    intro acc
    rw [List.foldl_cons, ih, pyInsert_keys, List.map_cons, dedupF]
    by_cases hm : p.1 ∈ acc.map Prod.fst
    · rw [if_pos hm, if_pos hm]
    · rw [if_neg hm, if_neg hm]
      have h' : ∀ x, x ∈ (acc.map Prod.fst ++ [p.1]) ↔ x ∈ p.1 :: acc.map Prod.fst := by
        intro x
        simp [List.mem_append, List.mem_cons, or_comm]
      rw [dedupF_congr _ _ _ h', List.append_assoc]
      rfl

theorem dedupF_not_mem (l : List String) :
    ∀ (seen : List String) (k : String), k ∈ seen → k ∉ dedupF seen l := by
  induction l with
  | nil => intro seen k _; simp [dedupF]
  | cons a t ih =>
    intro seen k hk
    rw [dedupF]
    by_cases ha : a ∈ seen
    · rw [if_pos ha]
      exact ih seen k hk
    · rw [if_neg ha]
      intro hmem
      rcases List.mem_cons.mp hmem with h | h
      · exact ha (h ▸ hk)
      · exact ih (a :: seen) k (List.mem_cons_of_mem a hk) h

theorem dedupF_count_one (l : List String) :
    ∀ (seen : List String) (k : String), k ∈ l → k ∉ seen →
      (dedupF seen l).count k = 1 := by
  induction l with
  | nil => intro seen k h; exact absurd h (List.not_mem_nil k)
  | cons a t ih =>
    intro seen k hl hs
    rw [dedupF]
    by_cases ha : a ∈ seen
    · rw [if_pos ha]
      rcases List.mem_cons.mp hl with h | h
      · exact absurd (h ▸ ha) hs
      · exact ih seen k h hs
    · rw [if_neg ha]
      by_cases hka : k = a
      · subst hka
        rw [List.count_cons_self]
        have : k ∉ dedupF (k :: seen) t :=
          dedupF_not_mem t (k :: seen) k (List.mem_cons_self k seen)
        rw [List.count_eq_zero.mpr this]
      · rw [List.count_cons_of_ne hka]
        rcases List.mem_cons.mp hl with h | h
        · exact absurd h hka
        · have hs' : k ∉ a :: seen := by
            intro hm
            rcases List.mem_cons.mp hm with h' | h'
            · exact hka h'
            · exact hs h'
          exact ih (a :: seen) k h hs'

theorem hasEndMark_tail {a : Char} {t : List Char}
    (h : hasEndMark (a :: t) = false) : hasEndMark t = false := by
  cases t with
  | nil => rfl
  | cons b t' =>
    rw [hasEndMark, Bool.or_eq_false_iff] at h
    exact h.2

theorem skipBlock_append (body rest : List Char)
    (h1 : '\n' ∉ body) (h2 : hasEndMark body = false) :
    skipBlock (body ++ '#' :: '/' :: rest) = some rest := by
  induction body with
  | nil => rfl
  | cons c t ih =>
    have hc : c ≠ '\n' := fun h => h1 (h ▸ List.mem_cons_self c t)
    have h1t : '\n' ∉ t := fun h => h1 (List.mem_cons_of_mem c h)
    have h2t : hasEndMark t = false := hasEndMark_tail h2
    rw [List.cons_append, skipBlock, if_neg hc]
    cases t with
    | nil =>
      have hcond : ¬(c = '#' ∧ (([] : List Char) ++ '#' :: '/' :: rest).head? = some '/') := by
        simp
      rw [if_neg hcond]
      rfl
    | cons b t' =>
      have hb : ¬(c = '#' ∧ b = '/') := by
        intro ⟨hc', hb'⟩
        subst hc' hb'
        rw [hasEndMark] at h2
        simp at h2
      have hcond : ¬(c = '#' ∧ ((b :: t') ++ '#' :: '/' :: rest).head? = some '/') := by
        intro ⟨hc', hh⟩
        simp at hh
        exact hb ⟨hc', hh⟩
      rw [if_neg hcond]
      exact ih h1t h2t

/-! ## Claim theorems -/

set_option maxHeartbeats 4000000

/-- C3: for every division `a / b` whose operands both evaluate to numbers
(`int` or `float`) with a non-zero divisor, the result is a `float`
carrying the true quotient — even when both operands are integers; in
particular `const x = |10 / 2|` binds `x` to `Float(5.0)`. -/
theorem C3_div_always_float :
    (∀ (c : Consts) (l r : Expr) (x y : Value) (a b : ℚ),
        evalExpr c l = .ok x → evalExpr c r = .ok y →
        toQ x = some a → toQ y = some b → b ≠ 0 →
        evalExpr c (.bin .div l r) = .ok (.float (a / b))) ∧
    runItems "const x = |10 / 2|" =
      .ok ([.constItem "x" (.float 5)], [("x", .float 5)]) := by
  refine ⟨?_, by with_unfolding_all rfl⟩
  intro c l r x y a b hl hr hx hy hb
  simp only [evalExpr_bin, hl, hr, okBind]
  exact arith_div_ok hx hy hb

/-- C3 witness: `10 / 2` on integer operands evaluates to the float `5`. -/
theorem C3_witness :
    evalExpr [] (.bin .div (.lit (.int 10)) (.lit (.int 2))) =
      .ok (.float ((10 : ℚ) / 2)) :=
  C3_div_always_float.1 [] _ _ (.int 10) (.int 2) 10 2 rfl rfl rfl rfl
    (by norm_num)

/-- C4: earlier constants are visible to later bindings
(`const a = 10` then `const b = |a * 2|` gives `b = Integer(20)`), and
`+`/`-`/`*` keep two `int`s an `int` while any `float` operand produces a
`float`. -/
theorem C4_promotion_and_scope :
    (∀ a b : Int,
        arith .add (.int a) (.int b) = .ok (.int (a + b)) ∧
        arith .sub (.int a) (.int b) = .ok (.int (a - b)) ∧
        arith .mul (.int a) (.int b) = .ok (.int (a * b))) ∧
    (∀ (op : Op) (x y : Value) (a b : ℚ), op ≠ .div →
        toQ x = some a → toQ y = some b → (isFloat x ∨ isFloat y) →
        arith op x y = .ok (.float (qOp op a b))) ∧
    runItems "const a = 10\nconst b = |a * 2|" =
      .ok ([.constItem "a" (.int 10), .constItem "b" (.int 20)],
        [("a", .int 10), ("b", .int 20)]) := by
  refine ⟨fun a b => ⟨rfl, rfl, rfl⟩, ?_, by with_unfolding_all rfl⟩
  intro op x y a b hop hx hy hf
  exact arith_float op hop hx hy hf

/-- C4 witness: an `int` times a `float` yields a `float`. -/
theorem C4_witness :
    arith .mul (.int 3) (.float (1 / 2)) = .ok (.float (qOp .mul 3 (1 / 2))) :=
  C4_promotion_and_scope.2.1 .mul (.int 3) (.float (1 / 2)) 3 (1 / 2)
    (by decide) rfl rfl (Or.inr rfl)

/-- C5: an identifier absent from the constant table evaluates to the raw
string (`Symbol`), a value rather than an error, and the serializer maps
it to a `<string>` text node carrying the raw name. -/
theorem C5_symbol_fallthrough :
    (∀ (c : Consts) (s : String), alookup c s = none →
        getValueStr c s = .sym s ∧ evalExpr c (.ident s) = .ok (.sym s)) ∧
    (∀ s, valueToXml (.sym s) = .elem "string" [] (some s) []) ∧
    runPipeline "const b = a" = .ok (.elem "config" [] none
      [.elem "const" [("name", "b")] none
        [.elem "string" [] (some "a") []]]) := by
  refine ⟨?_, fun s => rfl, by with_unfolding_all rfl⟩
  intro c s h
  have hg : getValueStr c s = .sym s := by rw [getValueStr, h]
  exact ⟨hg, by simp only [evalExpr, hg]⟩

/-- C5 witness: the unbound name `a` evaluates to `Symbol "a"`. -/
theorem C5_witness :
    getValueStr [] "a" = .sym "a" ∧
    evalExpr [] (.ident "a") = .ok (.sym "a") :=
  C5_symbol_fallthrough.1 [] "a" rfl

/-- C6: a binary arithmetic operation on operands of which at least one is
not a number (`int`/`float`) fails with `TypeError` (the spec's
`TypeMismatch`); in particular `const b = |a * 2|` with `a` unbound fails
that way. -/
theorem C6_binop_type_error :
    (∀ (c : Consts) (op : Op) (l r : Expr) (x y : Value),
        evalExpr c l = .ok x → evalExpr c r = .ok y →
        (toQ x = none ∨ toQ y = none) →
        evalExpr c (.bin op l r) = .error .typeMismatch) ∧
    runItems "const b = |a * 2|" = .error .typeMismatch := by
  refine ⟨?_, by with_unfolding_all rfl⟩
  intro c op l r x y hl hr h
  simp only [evalExpr_bin, hl, hr, okBind]
  exact arith_typeMismatch op h

/-- C6 witness: multiplying the symbol `a` by `2` is a type mismatch. -/
theorem C6_witness :
    evalExpr [] (.bin .mul (.ident "a") (.lit (.int 2))) =
      .error .typeMismatch :=
  C6_binop_type_error.1 [] .mul _ _ (.sym "a") (.int 2) rfl rfl (Or.inl rfl)

/-- C7 (amended): a division whose operands both evaluate to numbers and
whose divisor evaluates to numeric zero fails with `ZeroDivisionError`
(`DivisionByZero`); the pipeline then exits with status 1 and writes no
output.  (The claim's unrestricted form is false: a non-numeric left
operand makes the failure a `TypeMismatch`, see the counterexample.) -/
theorem C7_div_zero_amended :
    (∀ (c : Consts) (l r : Expr) (x y : Value) (a : ℚ),
        evalExpr c l = .ok x → evalExpr c r = .ok y →
        toQ x = some a → toQ y = some 0 →
        evalExpr c (.bin .div l r) = .error .divisionByZero) ∧
    runPipeline "const z = |1 / 0|" = .error .divisionByZero ∧
    exitCode "const z = |1 / 0|" = 1 ∧
    writtenOutput "const z = |1 / 0|" = none := by
  refine ⟨?_, by with_unfolding_all rfl, by with_unfolding_all rfl, by with_unfolding_all rfl⟩
  intro c l r x y a hl hr hx hy
  simp only [evalExpr_bin, hl, hr, okBind]
  exact arith_div_zero hx hy

/-- C7 witness: `1 / 0` evaluates to `DivisionByZero`. -/
theorem C7_witness :
    evalExpr [] (.bin .div (.lit (.int 1)) (.lit (.int 0))) =
      .error .divisionByZero :=
  C7_div_zero_amended.1 [] _ _ (.int 1) (.int 0) 1 rfl rfl rfl rfl

/-- C7 counterexample: `const z = |a / 0|` has a right operand evaluating
to numeric zero, yet the pipeline fails with `TypeMismatch`, not
`DivisionByZero` (the type check runs before the zero test). -/
theorem C7_counterexample :
    runPipeline "const z = |a / 0|" = .error .typeMismatch ∧
    Err.typeMismatch ≠ Err.divisionByZero ∧
    exitCode "const z = |a / 0|" = 1 ∧
    writtenOutput "const z = |a / 0|" = none :=
  ⟨by with_unfolding_all rfl, by decide, by with_unfolding_all rfl, by with_unfolding_all rfl⟩

/-- C8: a numeric literal evaluates (via `float(...)` then
`is_integer()`) to an `int` exactly when its parsed value has no
fractional part; `5.0` gives `Integer(5)` and `5.5` gives `Float(5.5)`. -/
theorem C8_literal_kinds :
    (∀ q : ℚ, (∃ n : Int, (n : ℚ) = q) → numberVal q = .int q.num) ∧
    (∀ q : ℚ, (∀ n : Int, (n : ℚ) ≠ q) → numberVal q = .float q) ∧
    (∀ (q : ℚ) (n : Int), numberVal q = .int n → (n : ℚ) = q) ∧
    numLitQ "5.0" = some 5 ∧ numberVal 5 = .int 5 ∧
    numLitQ "5.5" = some (11 / 2) ∧ numberVal (11 / 2) = .float (11 / 2) := by
  refine ⟨?_, ?_, ?_, by with_unfolding_all rfl, by with_unfolding_all rfl, by with_unfolding_all rfl, by with_unfolding_all rfl⟩
  · intro q ⟨n, hn⟩
    have hd : q.den = 1 := by rw [← hn]; exact Rat.den_intCast n
    rw [numberVal, if_pos hd]
  · intro q h
    have hd : ¬q.den = 1 := fun hd => h q.num (Rat.den_eq_one_iff q |>.mp hd)
    rw [numberVal, if_neg hd]
  · intro q n h
    rw [numberVal] at h
    by_cases hd : q.den = 1
    · rw [if_pos hd] at h
      have : q.num = n := Value.int.inj h
      rw [← this]
      exact (Rat.den_eq_one_iff q).mp hd
    · rw [if_neg hd] at h
      exact absurd h (by intro hh; cases hh)

/-- C8 witness: the literal value `5` is integral, `11/2` is not. -/
theorem C8_witness :
    numberVal 5 = .int (5 : ℚ).num ∧ numberVal (11 / 2) = .float (11 / 2) :=
  ⟨C8_literal_kinds.1 5 ⟨5, by norm_num⟩,
    C8_literal_kinds.2.1 (11 / 2) (by
      intro n hn
      have := congrArg Rat.den hn
      simp [Rat.den_intCast] at this
      norm_num at this)⟩

/-- C10: a document whose token stream is empty (empty text, or only
whitespace and comments) succeeds: the pipeline exits with status 0 and
writes a `<config>` root with zero children. -/
theorem C10_empty_document :
    ∀ src : String, tokenize src = .ok [] →
      runPipeline src = .ok (.elem "config" [] none []) ∧
      exitCode src = 0 ∧
      writtenOutput src = some (.elem "config" [] none []) := by
  intro src h
  have hr : runPipeline src = .ok (.elem "config" [] none []) := by
    unfold runPipeline runItems
    rw [h]
    rfl
  refine ⟨hr, ?_, ?_⟩
  · unfold exitCode
    rw [hr]
  · unfold writtenOutput
    rw [hr]

/-- C10 witness: a document holding only whitespace, a line comment and a
single-line block comment lexes to no tokens and yields an empty root. -/
theorem C10_witness :
    runPipeline "  ! note\n/# c #/  " = .ok (.elem "config" [] none []) ∧
    exitCode "  ! note\n/# c #/  " = 0 :=
  ⟨(C10_empty_document "  ! note\n/# c #/  " (by with_unfolding_all rfl)).1,
    (C10_empty_document "  ! note\n/# c #/  " (by with_unfolding_all rfl)).2.1⟩

/-- C9: duplicate keys inside one `table(...)` literal are not an error:
Python dict construction keeps each key exactly once, at the position of
its first occurrence (the key list is the first-occurrence dedup of the
entry keys), bound to the value of the last entry with that key;
concretely `table([a = 1, b = 2, a = 3])` yields entries
`a = 3, b = 2`. -/
theorem C9_duplicate_keys :
    (∀ ps : List (String × Value),
        (pyDict ps).map Prod.fst = dedupF [] (ps.map Prod.fst) ∧
        ∀ k, alookup (pyDict ps) k = lastAssoc ps k) ∧
    (∀ (ps : List (String × Value)) (k : String), k ∈ ps.map Prod.fst →
        ((pyDict ps).map Prod.fst).count k = 1) ∧
    runItems "table([a = 1, b = 2, a = 3])" =
      .ok ([.bare (.dict [("a", .int 3), ("b", .int 2)])], []) := by
  have hkeys : ∀ ps : List (String × Value),
      (pyDict ps).map Prod.fst = dedupF [] (ps.map Prod.fst) := by
    intro ps
    have h := pyFold_keys ps []
    simpa [pyDict] using h
  refine ⟨?_, ?_, by with_unfolding_all rfl⟩
  · intro ps
    refine ⟨hkeys ps, ?_⟩
    intro k
    have h := pyFold_lookup ps [] k
    rw [pyDict, h]
    cases lastAssoc ps k <;> rfl
  · intro ps k hk
    rw [hkeys ps]
    exact dedupF_count_one (ps.map Prod.fst) [] k hk (List.not_mem_nil k)

/-- C9 witness: with entries `a = 1, a = 2` the key `a` appears exactly
once in the constructed dict. -/
theorem C9_witness :
    ((pyDict [("a", Value.int 1), ("a", Value.int 2)]).map Prod.fst).count "a" = 1 :=
  C9_duplicate_keys.2.1 [("a", .int 1), ("a", .int 2)] "a" (by simp)

/-- C2 counterexample: an otherwise-valid document containing a multi-line
block comment does not lex: the pipeline fails with a syntax error instead
of discarding the comment, because `.` in the `%ignore` regex does not
match a newline. -/
theorem C2_counterexample :
    runPipeline "const a = 1\n/# b\nc #/\nconst d = 2" = .error .larkError := by
  with_unfolding_all rfl

/-- C2 (amended): a block comment is stripped before tokenization only
when its non-greedily matched end marker `#/` occurs before the next
newline.  The comment scanner skips any body free of newlines and end
markers up to the first `#/`; a document with a single-line block comment
tokenizes exactly like the same document without the comment; a block
comment spanning multiple lines makes lexing fail. -/
theorem C2_block_comment_amended :
    (∀ (body rest : List Char), '\n' ∉ body → hasEndMark body = false →
        skipBlock (body ++ '#' :: '/' :: rest) = some rest) ∧
    tokenize "const a = /# hi #/ 1" = tokenize "const a = 1" ∧
    runPipeline "const a = /# hi #/ 1" = .ok (.elem "config" [] none
      [.elem "const" [("name", "a")] none
        [.elem "number" [("type", "integer")] (some "1") []]]) ∧
    tokenize "/# b\nc #/" = .error .larkError :=
  ⟨skipBlock_append, by with_unfolding_all rfl, by with_unfolding_all rfl,
    by with_unfolding_all rfl⟩

/-- C2 witness: the comment body ` hi ` contains no newline and no end
marker, so the scanner skips it and resumes right after `#/`. -/
theorem C2_witness :
    skipBlock ([' ', 'h', 'i', ' '] ++ '#' :: '/' :: [' ', '1']) =
      some [' ', '1'] :=
  C2_block_comment_amended.1 [' ', 'h', 'i', ' '] [' ', '1'] (by decide) (by decide)

/-- C1 counterexample: `const n = |len((1,2,3))|` does not succeed: the
expression grammar has no array literal production, so the comma after `1`
is a syntax error and the pipeline fails. -/
theorem C1_counterexample :
    runPipeline "const n = |len((1,2,3))|" = .error .larkError := by
  with_unfolding_all rfl

/-- C1 (amended): `const n = |len((1,2,3))|` fails with a syntax error
(array literals cannot occur inside `|...|` expressions), and a call
`len(e)` with any argument does not fail with `TypeMismatch` but with an
uncaught `IndexError`: the `"len"` token is filtered out of the parse
tree, so the function node has a single child and `_eval_function`'s read
of `tree.children[1]` raises before the argument is even inspected — in
particular for `const n = |len(5)|`. -/
theorem C1_len_amended :
    runPipeline "const n = |len((1,2,3))|" = .error .larkError ∧
    (∀ (c : Consts) (arg : Expr), evalExpr c (.call arg) = .error .indexError) ∧
    runPipeline "const n = |len(5)|" = .error .indexError ∧
    Err.indexError ≠ Err.typeMismatch :=
  ⟨by with_unfolding_all rfl, fun c arg => rfl, by with_unfolding_all rfl,
    by decide⟩

/-- C1 witness: `len(5)` (a call node with the literal `5` as argument)
evaluates to the internal `IndexError`. -/
theorem C1_witness :
    evalExpr [] (.call (.lit (.int 5))) = .error .indexError :=
  C1_len_amended.2.1 [] (.lit (.int 5))

end Conv

